import Mathlib

/-!
Shallow embedding of the classification-and-extraction engine of
`pdf_claim_parser.py` (HCFA-1500 / EOB claim-text parsing), together with
proofs about its behaviour.  Text is modelled as `List Char`; the regular
expressions the source uses are modelled by a small pattern language with a
backtracking, leftmost, greedy matcher mirroring the semantics of Python
`re.search` on the constructs actually used (character classes, `*`, `+`,
`?`, alternation, one capture group, word boundaries, `re.IGNORECASE`).
Exact decimals (Python `Decimal`) are modelled as rationals.
-/

namespace PdfClaim

/-- Whitespace characters, as in Python regex `\s` and `str.split` / `str.strip`
(ASCII range). -/
def isPySpace (c : Char) : Bool :=
  c = ' ' || c = '\t' || c = '\n' || c = '\r' || c = '\x0b' || c = '\x0c'

/-- Word characters, as in Python regex `\w` (ASCII range), used by `\b`. -/
def isWordChar (c : Char) : Bool :=
  ('a' ≤ c && c ≤ 'z') || ('A' ≤ c && c ≤ 'Z') || ('0' ≤ c && c ≤ '9') || c = '_'

/-- Code point with upper-case ASCII letters folded to lower case. -/
def lowerNat (c : Char) : Nat :=
  if 65 ≤ c.toNat && c.toNat ≤ 90 then c.toNat + 32 else c.toNat

/-- Case-insensitive character comparison (`re.IGNORECASE`). -/
def ciEq (c : Char) : Char → Bool := fun x => lowerNat x = lowerNat c

/-- ASCII lower-casing of one character (Python `str.lower`, ASCII range). -/
def toLowerCh (c : Char) : Char :=
  if 65 ≤ c.toNat && c.toNat ≤ 90 then Char.ofNat (c.toNat + 32) else c

def lowerL (cs : List Char) : List Char := cs.map toLowerCh

/-- Any character but a newline: regex `.` (no DOTALL) and `[^\n]`. -/
def notNl (c : Char) : Bool := !(c = '\n')

def isDigitCh (c : Char) : Bool := '0' ≤ c && c ≤ '9'

/-- The class `[-\s]`. -/
def dashOrSpace (c : Char) : Bool := c = '-' || isPySpace c

/-- The class `[:\s]`. -/
def colonOrSpace (c : Char) : Bool := c = ':' || isPySpace c

/-- The class `[:\-]`. -/
def colonOrDash (c : Char) : Bool := c = ':' || c = '-'

/-- The class `[A-Z0-9-]` under `re.IGNORECASE`. -/
def claimIdChar (c : Char) : Bool :=
  ('A' ≤ c && c ≤ 'Z') || ('a' ≤ c && c ≤ 'z') || isDigitCh c || c = '-'

/-- The apostrophe character (appears in the source patterns). -/
def aposC : Char := Char.ofNat 39

/-- Pattern language covering the regex constructs used by the source:
single-character classes, concatenation, alternation, greedy `*`/`+` over a
character class, greedy `?`, one capture group, and `\b`. -/
inductive Pat where
  | eps : Pat
  | ch (p : Char → Bool) : Pat
  | cat (a b : Pat) : Pat
  | alt (a b : Pat) : Pat
  | starCh (p : Char → Bool) : Pat
  | plusCh (p : Char → Bool) : Pat
  | opt (a : Pat) : Pat
  | group (a : Pat) : Pat
  | wb : Pat

/-- Length of the maximal run of characters satisfying `p`. -/
def runLenL (p : Char → Bool) : List Char → Nat
  | [] => 0
  | c :: rest => if p c then runLenL p rest + 1 else 0

def runLen (cs : List Char) (p : Char → Bool) (i : Nat) : Nat :=
  runLenL p (cs.drop i)

def isWordAt (cs : List Char) (i : Nat) : Bool :=
  match cs.get? i with
  | some c => isWordChar c
  | none => false

/-- Word boundary test at position `i`, as Python `\b`. -/
def wordBoundary (cs : List Char) (i : Nat) : Bool :=
  match i with
  | 0 => isWordAt cs 0
  | j + 1 => isWordAt cs j != isWordAt cs (j + 1)

/-- Continuation result: end position of the whole match and the span of the
capture group, if one was taken. -/
abbrev KRes := Option (Nat × Option (Nat × Nat))

/-- Try continuation `k` at positions `i + m`, `i + m - 1`, ..., `i + lo`
(longest first: greedy repetition with backtracking). -/
def tryFrom (k : Nat → KRes) (i lo : Nat) : Nat → KRes
  | 0 => if lo = 0 then k i else none
  | m + 1 =>
      if m + 1 < lo then none
      else
        match k (i + m + 1) with
        | some r => some r
        | none => tryFrom k i lo m

/-- Backtracking matcher in continuation style: match `pat` at position `i`
of `cs`, with current capture `cap`, and continue with `k`.  Alternatives are
tried left to right and repetition greedily, as Python `re` does. -/
def matchPat (cs : List Char) : Pat → Nat → Option (Nat × Nat) →
    (Nat → Option (Nat × Nat) → KRes) → KRes
  | .eps, i, cap, k => k i cap
  | .ch p, i, cap, k =>
      match cs.get? i with
      | some c => if p c then k (i + 1) cap else none
      | none => none
  | .cat a b, i, cap, k => matchPat cs a i cap (fun j c2 => matchPat cs b j c2 k)
  | .alt a b, i, cap, k =>
      match matchPat cs a i cap k with
      | some r => some r
      | none => matchPat cs b i cap k
  | .starCh p, i, cap, k => tryFrom (fun j => k j cap) i 0 (runLen cs p i)
  | .plusCh p, i, cap, k => tryFrom (fun j => k j cap) i 1 (runLen cs p i)
  | .opt a, i, cap, k =>
      match matchPat cs a i cap k with
      | some r => some r
      | none => k i cap
  | .group a, i, cap, k => matchPat cs a i cap (fun j _ => k j (some (i, j)))
  | .wb, i, cap, k => if wordBoundary cs i then k i cap else none

/-- A match: start, end, and the capture-group span (`re.Match` data). -/
structure MRes where
  start : Nat
  stop : Nat
  cap : Option (Nat × Nat)
deriving DecidableEq, Repr

/-- Scan start positions `s, s+1, ...` (at most `fuel` further ones) and
return the leftmost match, as `re.search`. -/
def searchAux (cs : List Char) (pat : Pat) : Nat → Nat → Option MRes
  | s, fuel =>
    match matchPat cs pat s none (fun j cap => some (j, cap)) with
    | some (j, cap) => some ⟨s, j, cap⟩
    | none =>
        match fuel with
        | 0 => none
        | f + 1 => searchAux cs pat (s + 1) f

/-- Model of `re.search(pat, cs)`: leftmost match, greedy within a start position. -/
def reSearch (pat : Pat) (cs : List Char) : Option MRes :=
  searchAux cs pat 0 cs.length

def reMatches (pat : Pat) (cs : List Char) : Bool :=
  (reSearch pat cs).isSome

/-- Concatenation of a list of patterns. -/
def pseq (l : List Pat) : Pat := l.foldr Pat.cat Pat.eps

/-- Ordered alternation of a list of patterns. -/
def palts : List Pat → Pat
  | [] => Pat.ch (fun _ => false)
  | [p] => p
  | p :: q :: rest => Pat.alt p (palts (q :: rest))

/-- Case-insensitive literal string. -/
def plit (s : String) : Pat := pseq (s.data.map (fun c => Pat.ch (ciEq c)))

def pch (c : Char) : Pat := Pat.ch (ciEq c)

/-- Python `str.strip()`. -/
def pystrip (cs : List Char) : List Char :=
  ((cs.dropWhile isPySpace).reverse.dropWhile isPySpace).reverse

/-- Python `str.split()` (split on whitespace runs, drop empty parts):
worker carrying the current word reversed. -/
def pysplitAux : List Char → List Char → List (List Char)
  | [], acc => if acc.isEmpty then [] else [acc.reverse]
  | c :: rest, acc =>
      if isPySpace c then
        if acc.isEmpty then pysplitAux rest [] else acc.reverse :: pysplitAux rest []
      else pysplitAux rest (c :: acc)

def pysplit (cs : List Char) : List (List Char) := pysplitAux cs []

/-- Python `str.splitlines()` for newline-separated text. -/
def splitlines : List Char → List Char
    → List (List Char)
  | [], acc => if acc.isEmpty then [] else [acc.reverse]
  | c :: rest, acc =>
      if c = '\n' then acc.reverse :: splitlines rest [] else splitlines rest (c :: acc)

def pysplitlines (cs : List Char) : List (List Char) := splitlines cs []

/-- Is `needle` an initial segment of `hay`? -/
def begMatch : List Char → List Char → Bool
  | [], _ => true
  | _ :: _, [] => false
  | a :: xs, b :: ys => a = b && begMatch xs ys

/-- Python `needle in hay` substring test. -/
def containsSub (needle : List Char) : List Char → Bool
  | [] => needle.isEmpty
  | c :: rest => begMatch needle (c :: rest) || containsSub needle rest

def subChars (cs : List Char) (a b : Nat) : List Char := (cs.drop a).take (b - a)

/-- Model of `_find_field`: search, then `m.group(1).strip()`. -/
def findField (pat : Pat) (cs : List Char) : Option String :=
  match reSearch pat cs with
  | some m =>
      match m.cap with
      | some ab => some (String.mk (pystrip (subChars cs ab.1 ab.2)))
      | none => none
  | none => none

/-- Python truthiness filter on an optional string (`if value:`). -/
def truthyStr : Option String → Option String
  | some s => if s = "" then none else some s
  | none => none

def allDigits (cs : List Char) : Bool := cs.all isDigitCh

def digitsToNat (cs : List Char) : Nat :=
  cs.foldl (fun a c => a * 10 + (c.toNat - 48)) 0

/-- Split a character list at every dot. -/
def splitOnDot : List Char → List (List Char)
  | [] => [[]]
  | c :: rest =>
      if c = '.' then [] :: splitOnDot rest
      else
        match splitOnDot rest with
        | h :: t => (c :: h) :: t
        | [] => [[c]]

def ratOfDigits (sgn : Bool) (ip fp : List Char) : Rat :=
  let q : Rat := mkRat (Int.ofNat (digitsToNat (ip ++ fp))) (10 ^ fp.length)
  if sgn then -q else q

/-- Python `Decimal(s)` on the strings `parse_money` can feed it: optional
sign, then digits with at most one dot and at least one digit; anything else
(in particular the empty string) fails. -/
def decimalOfChars (cs : List Char) : Option Rat :=
  match cs with
  | '-' :: rest => decimalBody true rest
  | '+' :: rest => decimalBody false rest
  | _ => decimalBody false cs
where
  decimalBody (sgn : Bool) (body : List Char) : Option Rat :=
    match splitOnDot body with
    | [ip] => if !ip.isEmpty && allDigits ip then some (ratOfDigits sgn ip []) else none
    | [ip, fp] =>
        if !(ip ++ fp).isEmpty && allDigits ip && allDigits fp then
          some (ratOfDigits sgn ip fp)
        else none
    | _ => none

/-- The strip/paren-detect/filter phase of `parse_money`: returns the
negativity flag and the remainder handed to `Decimal`. -/
def moneyCleaned (cs : List Char) : Bool × List Char :=
  let cleaned := pystrip cs
  let neg := cleaned.head? = some '(' && cleaned.getLast? = some ')'
  let inner := if neg then (cleaned.drop 1).dropLast else cleaned
  (neg, inner.filter (fun c => isDigitCh c || c = '.' || c = '-'))

def moneyRemainder (cs : List Char) : List Char := (moneyCleaned cs).2

/-- Model of `parse_money` of the source: strip formatting, parentheses mean negative,
`Decimal` failure is caught and yields `none`. -/
def parse_moneyC (cs : List Char) : Option Rat :=
  if cs.isEmpty then none
  else
    match decimalOfChars (moneyCleaned cs).2 with
    | some amount => some (if (moneyCleaned cs).1 then -amount else amount)
    | none => none

def parse_money (s : String) : Option Rat := parse_moneyC s.data

/-- Python `Decimal` construction as a fallible step (raises `InvalidOperation`). -/
def decimalE (cs : List Char) : Except String Rat :=
  match decimalOfChars cs with
  | some q => Except.ok q
  | none => Except.error "InvalidOperation"

/-- Model of `parse_money` with the raising `Decimal` step explicit; the `match` on
`decimalE` is the `try/except` of the source. -/
def parse_moneyE (cs : List Char) : Except String (Option Rat) :=
  if cs.isEmpty then Except.ok none
  else
    match decimalE (moneyCleaned cs).2 with
    | Except.ok amount => Except.ok (some (if (moneyCleaned cs).1 then -amount else amount))
    | Except.error _ => Except.ok none

/-- Modelled from the spec: DateNormalizer (spec 4.2).  The source delegates
to the third-party `dateutil` fuzzy parser, which is not part of this
repository; per the spec it turns common US and ISO date strings into
`YYYY-MM-DD` and yields the null result otherwise, never raising. -/
def parse_dateC (cs : List Char) : Option String :=
  if cs.isEmpty then none
  else
    match pystrip cs with
    | [y1, y2, y3, y4, '-', m1, m2, '-', d1, d2] =>
        if allDigits [y1, y2, y3, y4, m1, m2, d1, d2] then
          some (String.mk [y1, y2, y3, y4, '-', m1, m2, '-', d1, d2])
        else none
    | [m1, m2, '/', d1, d2, '/', y1, y2, y3, y4] =>
        if allDigits [y1, y2, y3, y4, m1, m2, d1, d2] then
          some (String.mk [y1, y2, y3, y4, '-', m1, m2, '-', d1, d2])
        else none
    | _ => none

def parse_date (s : String) : Option String := parse_dateC s.data

/-- Modelled from the spec: the date normalizer must "never raise"; the
source wraps the fuzzy parse in `try/except`, so the fallible component
always returns a (possibly null) result. -/
def parse_dateE (cs : List Char) : Except String (Option String) :=
  Except.ok (parse_dateC cs)

/-! ### Classification patterns -/

/-- Regex `CMS[-\s]?1500`. -/
def patCMS1500 : Pat := pseq [plit "CMS", Pat.opt (Pat.ch dashOrSpace), plit "1500"]

/-- Regex `HCFA[-\s]?1500`. -/
def patHCFA1500 : Pat := pseq [plit "HCFA", Pat.opt (Pat.ch dashOrSpace), plit "1500"]

/-- Regex `HCFA`. -/
def patHCFA : Pat := plit "HCFA"

/-- Regex `HEALTH\s+INSURANCE\s+CLAIM\s+FORM`. -/
def patHealthForm : Pat :=
  pseq [plit "HEALTH", Pat.plusCh isPySpace, plit "INSURANCE", Pat.plusCh isPySpace,
    plit "CLAIM", Pat.plusCh isPySpace, plit "FORM"]

/-- Regex `\b24J\b`. -/
def pat24J : Pat := pseq [Pat.wb, plit "24J", Pat.wb]

def HCFA_PATTERNS : List Pat := [patCMS1500, patHCFA1500, patHCFA, patHealthForm, pat24J]

/-- Regex `EXPLANATION\s+OF\s+BENEFITS`. -/
def patEobTitle : Pat :=
  pseq [plit "EXPLANATION", Pat.plusCh isPySpace, plit "OF", Pat.plusCh isPySpace,
    plit "BENEFITS"]

/-- Regex `REMITTANCE\s+ADVICE`. -/
def patRemittance : Pat := pseq [plit "REMITTANCE", Pat.plusCh isPySpace, plit "ADVICE"]

/-- Regex `EXPLANATION\s+OF\s+PAYMENT`. -/
def patEop : Pat :=
  pseq [plit "EXPLANATION", Pat.plusCh isPySpace, plit "OF", Pat.plusCh isPySpace,
    plit "PAYMENT"]

/-- Regex `\bEOB\b`. -/
def patEobWord : Pat := pseq [Pat.wb, plit "EOB", Pat.wb]

/-- Regex `CLAIM\s+SUMMARY`. -/
def patClaimSummary : Pat := pseq [plit "CLAIM", Pat.plusCh isPySpace, plit "SUMMARY"]

/-- Regex `PATIENT\s+RESPONSIBILITY`. -/
def patPatResp : Pat := pseq [plit "PATIENT", Pat.plusCh isPySpace, plit "RESPONSIBILITY"]

def EOB_PATTERNS : List Pat :=
  [patEobTitle, patRemittance, patEop, patEobWord, patClaimSummary, patPatResp]

/-- Model of `classify_text`: HCFA list first, then EOB list; `None` when nothing
matches. -/
def classify_text (cs : List Char) : Option String :=
  if HCFA_PATTERNS.any (fun p => reMatches p cs) then some "HCFA"
  else if EOB_PATTERNS.any (fun p => reMatches p cs) then some "EOB"
  else none

/-- Expression `classify_text(text) or "UNKNOWN"` as in `parse_file`. -/
def docType (cs : List Char) : String := (classify_text cs).getD "UNKNOWN"

/-! ### Data model -/

/-- The `ServiceLine` dataclass. -/
structure ServiceLine where
  cpt_code : Option String := none
  charge : Option Rat := none
  patient_responsibility : Option Rat := none
  insurance_paid : Option Rat := none
deriving DecidableEq, Repr

/-- A value stored inside a service-line record. -/
inductive RVal where
  | rstr (s : String) : RVal
  | rdec (q : Rat) : RVal
deriving DecidableEq, Repr

/-- A service-line record (Python dict); a `none` value is Python `None`. -/
abbrev Rec := List (String × Option RVal)

/-- A value in the top-level result mapping. -/
inductive Val where
  | vnull : Val
  | vstr (s : String) : Val
  | vdec (q : Rat) : Val
  | vstrList (l : List String) : Val
  | vrecs (l : List Rec) : Val
deriving DecidableEq, Repr

/-- The top-level result mapping (Python dict, insertion ordered). -/
abbrev PResult := List (String × Val)

def optStrVal : Option String → Val
  | some s => Val.vstr s
  | none => Val.vnull

/-- Lookup in the result mapping. -/
def pyGetR : PResult → String → Option Val
  | [], _ => none
  | (k, v) :: rest, key => if k = key then some v else pyGetR rest key

/-- Python `dict.get` on a record: absent key and null value both give
`none`. -/
def recGet : Rec → String → Option RVal
  | [], _ => none
  | (k, v) :: rest, key => if k = key then v else recGet rest key

/-- Model of `asdict(line).items()` in dataclass field order. -/
def asdictPairs (l : ServiceLine) : Rec :=
  [("cpt_code", l.cpt_code.map RVal.rstr),
   ("charge", l.charge.map RVal.rdec),
   ("patient_responsibility", l.patient_responsibility.map RVal.rdec),
   ("insurance_paid", l.insurance_paid.map RVal.rdec)]

/-- Model of the dict comprehension keeping only the non-None values of
`asdict(line)`. -/
def dictOf (l : ServiceLine) : Rec :=
  (asdictPairs l).filter (fun kv => kv.2.isSome)

/-! ### HCFA extractor -/

/-- Regex tail `[^\n]*\n(.+)` — skip to the end of the anchor line, then capture the
next line. -/
def lineTail : Pat :=
  pseq [Pat.starCh notNl, pch '\n', Pat.group (Pat.plusCh notNl)]

/-- Regex for the patients-name anchor: literal PATIENT, an apostrophe,
literal S NAME, then the captured next line. -/
def patPatientName : Pat := pseq [plit "PATIENT", pch aposC, plit "S NAME", lineTail]

/-- Regex for the insured-id anchor: literal 1A., spaces, INSURED, an
apostrophe, S ID NUMBER, then the captured next line. -/
def patInsuredId : Pat :=
  pseq [plit "1A.", Pat.starCh isPySpace, plit "INSURED", pch aposC, plit "S ID NUMBER",
    lineTail]

/-- Regex `5\.\s*PATIENT ADDRESS` followed by the captured next line. -/
def patAddress : Pat := pseq [plit "5.", Pat.starCh isPySpace, plit "PATIENT ADDRESS", lineTail]

/-- Regex `25\.\s*FEDERAL TAX ID NUMBER` followed by the captured next
line. -/
def patTaxId : Pat :=
  pseq [plit "25.", Pat.starCh isPySpace, plit "FEDERAL TAX ID NUMBER", lineTail]

/-- Regex `33A\.\s*NPI` followed by the captured next line. -/
def patNpi : Pat := pseq [plit "33A.", Pat.starCh isPySpace, plit "NPI", lineTail]

/-- Regex `3\.\s*DATE OF BIRTH` followed by the captured next line. -/
def patDob : Pat := pseq [plit "3.", Pat.starCh isPySpace, plit "DATE OF BIRTH", lineTail]

/-- The `FIELD_PATTERNS` mapping in insertion order. -/
def hcfaFieldList : List (String × Pat) :=
  [("patient_name", patPatientName), ("insured_id", patInsuredId),
   ("patient_address", patAddress), ("federal_tax_id", patTaxId),
   ("billing_npi", patNpi)]

/-- The `for field_name, pattern in FIELD_PATTERNS.items()` loop: a field is
stored only when `_find_field` returns a truthy value. -/
def hcfaFieldsPart (cs : List Char) : PResult :=
  hcfaFieldList.filterMap
    (fun np => (truthyStr (findField np.2 cs)).map (fun v => (np.1, Val.vstr v)))

/-- The date-of-birth step: when the anchor yields a truthy raw value, the
key is stored with the (possibly null) normalized date. -/
def hcfaDobPart (cs : List Char) : PResult :=
  match truthyStr (findField patDob cs) with
  | some v => [("patient_dob", optStrVal (parse_date v))]
  | none => []

/-- Regex `24A.*24B.*24D.*24F.*24J`. -/
def hcfaHeaderPat : Pat :=
  pseq [plit "24A", Pat.starCh notNl, plit "24B", Pat.starCh notNl, plit "24D",
    Pat.starCh notNl, plit "24F", Pat.starCh notNl, plit "24J"]

/-- Access `cols[i]` after a length guard: total accessor. -/
def tok (cols : List (List Char)) (i : Nat) : List Char := (cols.get? i).getD []

/-- One iteration of the HCFA service-line loop: `none` when the row is
skipped (`len(cols) < 4`). -/
def hcfaLineF (raw : List Char) : Option Rec :=
  let cols := pysplit raw
  if cols.length < 4 then none
  else
    some (dictOf
      { cpt_code := some (String.mk (tok cols 2)), charge := parse_moneyC (tok cols 3) })

/-- The `for raw in body` accumulation loop shared by both extractors. -/
def emitLoop (f : List Char → Option Rec) (body : List (List Char)) : List Rec :=
  body.foldl
    (fun acc raw =>
      match f raw with
      | none => acc
      | some r => acc ++ [r]) []

/-- Model of `HcfaParser._parse_service_lines`. -/
def hcfaServiceLines (cs : List Char) : List Rec :=
  match reSearch hcfaHeaderPat cs with
  | none => []
  | some m => emitLoop hcfaLineF (pysplitlines (cs.drop m.stop))

/-- Model of `HcfaParser.parse` given the service lines. -/
def hcfaResultWith (cs : List Char) (ls : List Rec) : PResult :=
  [("doc_type", Val.vstr "HCFA")] ++ hcfaFieldsPart cs ++ hcfaDobPart cs
    ++ [("service_lines", Val.vrecs ls)]

/-- Model of `HcfaParser.parse`. -/
def hcfaParse (cs : List Char) : PResult :=
  hcfaResultWith cs (hcfaServiceLines cs)

/-! ### EOB extractor -/

/-- Regex `(?:statement|payment|check|printed|processing)\s*date\s*(?:on)?\s*[:\-]?\s*([^\n]+)`. -/
def eobDatePat1 : Pat :=
  pseq [palts [plit "statement", plit "payment", plit "check", plit "printed",
      plit "processing"],
    Pat.starCh isPySpace, plit "date", Pat.starCh isPySpace, Pat.opt (plit "on"),
    Pat.starCh isPySpace, Pat.opt (Pat.ch colonOrDash), Pat.starCh isPySpace,
    Pat.group (Pat.plusCh notNl)]

/-- Regex `date\s*[:\-]?\s*([^\n]+)`. -/
def eobDatePat2 : Pat :=
  pseq [plit "date", Pat.starCh isPySpace, Pat.opt (Pat.ch colonOrDash),
    Pat.starCh isPySpace, Pat.group (Pat.plusCh notNl)]

/-- Model of `EobParser._extract_date`: first pattern of `DATE_PATTERNS` whose
(stripped) capture is truthy. -/
def eobExtractDate (cs : List Char) : Option String :=
  match truthyStr (findField eobDatePat1 cs) with
  | some v => some v
  | none => truthyStr (findField eobDatePat2 cs)

/-- Regex `CLAIM NUMBER[:\s]*([A-Z0-9-]+)`. -/
def claimNumPat : Pat :=
  pseq [plit "CLAIM NUMBER", Pat.starCh colonOrSpace, Pat.group (Pat.plusCh claimIdChar)]

/-- Model of `EobParser._extract_insurance_name`: first of the first ten lines whose
lower-cased text contains "insurance", stripped. -/
def insNameLoop : List (List Char) → Option String
  | [] => none
  | line :: rest =>
      if containsSub ("insurance".data) (lowerL line) then some (String.mk (pystrip line))
      else insNameLoop rest

def eobInsName (cs : List Char) : Option String :=
  insNameLoop ((pysplitlines cs).take 10)

/-- Regex `CPT\s+CODE`. -/
def eobHeaderPat : Pat := pseq [plit "CPT", Pat.plusCh isPySpace, plit "CODE"]

/-- One iteration of the EOB service-line loop. -/
def eobLineF (raw : List Char) : Option Rec :=
  let cols := pysplit raw
  if cols.length < 4 then none
  else
    some (dictOf
      { cpt_code := some (String.mk (tok cols 0)), charge := parse_moneyC (tok cols 1),
        patient_responsibility := parse_moneyC (tok cols 2),
        insurance_paid := parse_moneyC (tok cols 3) })

/-- Model of `EobParser._parse_service_lines`. -/
def eobServiceLines (cs : List Char) : List Rec :=
  match reSearch eobHeaderPat cs with
  | none => []
  | some m => emitLoop eobLineF (pysplitlines (cs.drop m.stop))

/-- Expression `l.get(k) or Decimal(0)` for the decimal-valued record
keys. -/
def recGetDec (r : Rec) (k : String) : Rat :=
  match recGet r k with
  | some (RVal.rdec q) => q
  | _ => 0

/-- Expression `l.get("cpt_code")` under Python truthiness. -/
def cptTruthy (r : Rec) : Option String :=
  match recGet r "cpt_code" with
  | some (RVal.rstr s) => if s = "" then none else some s
  | _ => none

/-- Lexicographic (code point) comparison, as Python `<` on strings. -/
def chLt : List Char → List Char → Bool
  | [], [] => false
  | [], _ :: _ => true
  | _ :: _, [] => false
  | a :: xs, b :: ys =>
      if a.toNat < b.toNat then true
      else if a.toNat = b.toNat then chLt xs ys
      else false

def strLt (s t : String) : Bool := chLt s.data t.data

/-- Insert into a strictly sorted list, dropping duplicates. -/
def insSorted (s : String) : List String → List String
  | [] => [s]
  | t :: rest =>
      if s = t then t :: rest
      else if strLt s t then s :: t :: rest
      else t :: insSorted s rest

/-- Model of `sorted(set(l))`: the ascending duplicate-free list of the
members. -/
def sortedDedup (l : List String) : List String :=
  l.foldl (fun acc s => insSorted s acc) []

/-- The aggregate block of `EobParser.parse` (`if service_lines:`). -/
def eobAggPart (lines : List Rec) : PResult :=
  if lines.isEmpty then []
  else
    [("cpt_codes", Val.vstrList (sortedDedup (lines.filterMap cptTruthy))),
     ("patient_responsibility",
       Val.vdec (lines.foldl (fun a r => a + recGetDec r "patient_responsibility") 0)),
     ("insurance_paid",
       Val.vdec (lines.foldl (fun a r => a + recGetDec r "insurance_paid") 0))]

/-- The optional `eob_date` entry of `EobParser.parse`. -/
def eobDatePart (cs : List Char) : PResult :=
  match eobExtractDate cs with
  | some d => if d = "" then [] else [("eob_date", optStrVal (parse_date d))]
  | none => []

/-- The optional `claim_number` entry of `EobParser.parse`. -/
def eobClaimPart (cs : List Char) : PResult :=
  match truthyStr (findField claimNumPat cs) with
  | some c => [("claim_number", Val.vstr c)]
  | none => []

/-- Model of `EobParser.parse` given the service lines; `insurance_name` is stored
unconditionally. -/
def eobResultWith (cs : List Char) (ls : List Rec) : PResult :=
  [("doc_type", Val.vstr "EOB")] ++ eobDatePart cs ++ eobClaimPart cs
    ++ [("insurance_name", optStrVal (eobInsName cs))]
    ++ [("service_lines", Val.vrecs ls)]
    ++ eobAggPart ls

/-- Model of `EobParser.parse`. -/
def eobParse (cs : List Char) : PResult :=
  eobResultWith cs (eobServiceLines cs)

/-- Model of `parse_file` on extracted text (the `source_file` entry
aside). -/
def parse_text (cs : List Char) : PResult :=
  if docType cs = "HCFA" then hcfaParse cs
  else if docType cs = "EOB" then eobParse cs
  else [("doc_type", Val.vstr (docType cs))]

/-- Model of `parse_file`: parse and attach the source name. -/
def parse_file (cs : List Char) (name : String) : PResult :=
  parse_text cs ++ [("source_file", Val.vstr name)]

/-! ### Exception-explicit variants

List indexing (`cols[i]`) is the one unguarded-looking fallible operation of
the extractors; these variants return `Except`, an `error` marking a Python
`IndexError` that would escape to the caller. -/

def tokE (cols : List (List Char)) (i : Nat) : Except String (List Char) :=
  match cols.get? i with
  | some t => Except.ok t
  | none => Except.error "IndexError"

def hcfaLineE (raw : List Char) : Except String (Option Rec) := do
  let cols := pysplit raw
  if cols.length < 4 then return none
  else
    let c2 ← tokE cols 2
    let c3 ← tokE cols 3
    return some (dictOf { cpt_code := some (String.mk c2), charge := parse_moneyC c3 })

def eobLineE (raw : List Char) : Except String (Option Rec) := do
  let cols := pysplit raw
  if cols.length < 4 then return none
  else
    let c0 ← tokE cols 0
    let c1 ← tokE cols 1
    let c2 ← tokE cols 2
    let c3 ← tokE cols 3
    return some (dictOf
      { cpt_code := some (String.mk c0), charge := parse_moneyC c1,
        patient_responsibility := parse_moneyC c2, insurance_paid := parse_moneyC c3 })

def emitLoopE (f : List Char → Except String (Option Rec)) (body : List (List Char)) :
    Except String (List Rec) :=
  body.foldlM
    (fun acc raw => do
      match ← f raw with
      | none => pure acc
      | some r => pure (acc ++ [r])) []

def hcfaServiceLinesE (cs : List Char) : Except String (List Rec) :=
  match reSearch hcfaHeaderPat cs with
  | none => Except.ok []
  | some m => emitLoopE hcfaLineE (pysplitlines (cs.drop m.stop))

def eobServiceLinesE (cs : List Char) : Except String (List Rec) :=
  match reSearch eobHeaderPat cs with
  | none => Except.ok []
  | some m => emitLoopE eobLineE (pysplitlines (cs.drop m.stop))

def hcfaParseE (cs : List Char) : Except String PResult :=
  Except.map (hcfaResultWith cs) (hcfaServiceLinesE cs)

def eobParseE (cs : List Char) : Except String PResult :=
  Except.map (eobResultWith cs) (eobServiceLinesE cs)

/-- The classify-then-extract orchestrator with explicit exceptions. -/
def parse_textE (cs : List Char) : Except String PResult :=
  if docType cs = "HCFA" then hcfaParseE cs
  else if docType cs = "EOB" then eobParseE cs
  else Except.ok [("doc_type", Val.vstr (docType cs))]

def excOk : Except String PResult → Bool
  | Except.ok _ => true
  | Except.error _ => false

/-! ### Spec-modelled diagnosis-code extraction -/

/-- Model of a `re.findall`-style scan: non-overlapping matches left to right, each
yielding the stripped capture; an empty match advances by one. -/
def findAllAux (cs : List Char) (pat : Pat) : Nat → Nat → List String
  | _, 0 => []
  | p, fuel + 1 =>
      match searchAux cs pat p (cs.length - p) with
      | none => []
      | some m =>
          match m.cap with
          | some ab =>
              String.mk (pystrip (subChars cs ab.1 ab.2))
                :: findAllAux cs pat (if p < m.stop then m.stop else p + 1) fuel
          | none => findAllAux cs pat (if p < m.stop then m.stop else p + 1) fuel

def reFindAll (pat : Pat) (cs : List Char) : List String :=
  findAllAux cs pat 0 (cs.length + 1)

/-- Modelled from the spec: the diagnosis-codes anchor of the HCFA extractor
(spec 4.5).  The extractor evolution carrying this field is not under `src/`;
per the spec it is a labeled-anchor pattern (box 21, diagnosis) captured with
a "find all" variant. -/
def diagPat : Pat :=
  pseq [plit "21.", Pat.starCh isPySpace, plit "DIAGNOSIS", Pat.starCh notNl, pch '\n',
    Pat.group (Pat.plusCh notNl)]

/-- Modelled from the spec: every diagnosis-code anchor match, in text
order. -/
def hcfaDiagnosisCodes (cs : List Char) : List String := reFindAll diagPat cs

/-- Modelled from the spec: the HCFA extractor variant that also emits the
`diagnosis_codes` field as an ordered sequence, omitted when no anchor
matches. -/
def hcfaResultWithDiag (cs : List Char) : PResult :=
  [("doc_type", Val.vstr "HCFA")] ++ hcfaFieldsPart cs
    ++ (match hcfaDiagnosisCodes cs with
        | [] => []
        | l => [("diagnosis_codes", Val.vstrList l)])
    ++ hcfaDobPart cs
    ++ [("service_lines", Val.vrecs (hcfaServiceLines cs))]

/-! ### Concrete sample texts used by witnesses and counterexamples -/

def c2txt : List Char := ("24A 24B 24D 24F 24J\nX Y 99213 150.00").data

def c3txt : List Char := ("CLAIM SUMMARY").data

def c4txt : List Char := ("CPT CODE\n99213 100.00 20.00 80.00\n99214 50.00 5.00 45.00").data

def c6txt : List Char := ("check date: 03/04/2022\npayment date: 05/06/2023").data

def c8txt : List Char := ("21. DIAGNOSIS\nA01\n21. DIAGNOSIS\nB02").data

def c9txt : List Char := ("CPT CODE\n99213 10.00 2.00 8.00").data

def c9rec : Rec :=
  [("cpt_code", some (RVal.rstr "99213")), ("charge", some (RVal.rdec 10)),
   ("patient_responsibility", some (RVal.rdec 2)),
   ("insurance_paid", some (RVal.rdec 8))]

/-- The strict order on strings used for `sorted` output. -/
def sLT (a b : String) : Prop := strLt a b = true

/-! ## Helper lemmas -/

theorem pyGetR_append_none {l1 l2 : PResult} {k : String} (h : pyGetR l1 k = none) :
    pyGetR (l1 ++ l2) k = pyGetR l2 k := by
  induction l1 with
  | nil => simp
  | cons kv rest ih =>
      obtain ⟨k1, v1⟩ := kv
      by_cases hk : k1 = k
      · simp [pyGetR, hk] at h
      · simp only [pyGetR, hk, if_false, List.cons_append] at h ⊢
        exact ih h

theorem pyGetR_append_some {l1 l2 : PResult} {k : String} {v : Val}
    (h : pyGetR l1 k = some v) : pyGetR (l1 ++ l2) k = some v := by
  induction l1 with
  | nil => simp [pyGetR] at h
  | cons kv rest ih =>
      obtain ⟨k1, v1⟩ := kv
      by_cases hk : k1 = k
      · simp only [pyGetR, hk, if_true, List.cons_append] at h ⊢
        exact h
      · simp only [pyGetR, hk, if_false, List.cons_append] at h ⊢
        exact ih h

theorem emitLoop_eq_filterMap_aux (f : List Char → Option Rec) (body : List (List Char))
    (acc : List Rec) :
    body.foldl
      (fun acc raw =>
        match f raw with
        | none => acc
        | some r => acc ++ [r]) acc = acc ++ body.filterMap f := by
  induction body generalizing acc with
  | nil => simp
  | cons raw rest ih =>
      cases hf : f raw with
      | none => simp [List.foldl_cons, hf, ih, List.filterMap_cons]
      | some r => simp [List.foldl_cons, hf, ih, List.filterMap_cons]

theorem emitLoop_eq_filterMap (f : List Char → Option Rec) (body : List (List Char)) :
    emitLoop f body = body.filterMap f := by
  simpa using emitLoop_eq_filterMap_aux f body []

theorem pysplitAux_ne_nil {cs acc : List Char} {t : List Char}
    (h : t ∈ pysplitAux cs acc) : t ≠ [] := by
  induction cs generalizing acc with
  | nil =>
      by_cases ha : acc.isEmpty
      · simp [pysplitAux, ha] at h
      · simp [pysplitAux, ha] at h
        subst h
        intro hrev
        rw [List.isEmpty_iff] at ha
        exact ha (by simpa using congrArg List.reverse hrev)
  | cons c rest ih =>
      by_cases hc : isPySpace c
      · by_cases ha : acc.isEmpty
        · simp only [pysplitAux, hc, ha, if_true] at h
          exact ih h
        · simp [pysplitAux, hc, ha, List.mem_cons] at h
          rcases h with h | h
          · subst h
            intro hrev
            rw [List.isEmpty_iff] at ha
            exact ha (by simpa using congrArg List.reverse hrev)
          · exact ih h
      · simp only [pysplitAux, hc, if_false] at h
        exact ih h

theorem pysplit_ne_nil {cs t : List Char} (h : t ∈ pysplit cs) : t ≠ [] :=
  pysplitAux_ne_nil h

theorem stringMk_ne_empty {t : List Char} (h : t ≠ []) : String.mk t ≠ "" := by
  intro he
  apply h
  have : (String.mk t).data = ("" : String).data := congrArg String.data he
  simpa using this

theorem foldl_add_eq_sum {α : Type} (g : α → Rat) (l : List α) (a : Rat) :
    l.foldl (fun x r => x + g r) a = a + (l.map g).sum := by
  induction l generalizing a with
  | nil => simp
  | cons r t ih => simp [ih, add_assoc]

theorem chLt_irrefl (xs : List Char) : chLt xs xs = false := by
  induction xs with
  | nil => rfl
  | cons a t ih => simp [chLt, ih]

theorem chLt_trans {xs ys zs : List Char} (h1 : chLt xs ys = true)
    (h2 : chLt ys zs = true) : chLt xs zs = true := by
  induction xs generalizing ys zs with
  | nil =>
      cases ys with
      | nil => simp [chLt] at h1
      | cons b yt =>
          cases zs with
          | nil => simp [chLt] at h2
          | cons c zt => rfl
  | cons a xt ih =>
      cases ys with
      | nil => simp [chLt] at h1
      | cons b yt =>
          cases zs with
          | nil => simp [chLt] at h2
          | cons c zt =>
              simp only [chLt] at h1 h2 ⊢
              by_cases hab : a.toNat < b.toNat
              · by_cases hbc : b.toNat < c.toNat
                · simp [Nat.lt_trans hab hbc]
                · simp only [hbc, if_false] at h2
                  by_cases hbc2 : b.toNat = c.toNat
                  · simp [hbc2 ▸ hab]
                  · simp [hbc2] at h2
              · simp only [hab, if_false] at h1
                by_cases hab2 : a.toNat = b.toNat
                · simp only [hab2, if_true] at h1
                  by_cases hbc : b.toNat < c.toNat
                  · simp [hab2 ▸ hbc]
                  · simp only [hbc, if_false] at h2
                    by_cases hbc2 : b.toNat = c.toNat
                    · have hac : a.toNat = c.toNat := hab2.trans hbc2
                      simp only [hbc2, if_true] at h2
                      simp [hac, Nat.lt_irrefl, ih h1 h2]
                    · simp [hbc2] at h2
                · simp [hab2] at h1

theorem charEq_of_toNat_eq {a b : Char} (h : a.toNat = b.toNat) : a = b :=
  Char.eq_of_val_eq (UInt32.ext h)

theorem chLt_total {xs ys : List Char} (hne : xs ≠ ys) :
    chLt xs ys = true ∨ chLt ys xs = true := by
  induction xs generalizing ys with
  | nil =>
      cases ys with
      | nil => exact absurd rfl hne
      | cons b yt => left; rfl
  | cons a xt ih =>
      cases ys with
      | nil => right; rfl
      | cons b yt =>
          by_cases hab : a.toNat < b.toNat
          · left; simp [chLt, hab]
          · by_cases hba : b.toNat < a.toNat
            · right; simp [chLt, hba]
            · have heq : a.toNat = b.toNat := Nat.le_antisymm (Nat.le_of_not_lt hba) (Nat.le_of_not_lt hab)
              have hab' : a = b := charEq_of_toNat_eq heq
              subst hab'
              have hne2 : xt ≠ yt := by
                intro h; exact hne (by rw [h])
              rcases ih hne2 with h | h
              · left; simp [chLt, Nat.lt_irrefl, h]
              · right; simp [chLt, Nat.lt_irrefl, h]

theorem sLT_total {s t : String} (hne : s ≠ t) : sLT s t ∨ sLT t s := by
  have hd : s.data ≠ t.data := fun h => hne (String.ext h)
  exact chLt_total hd

theorem sLT_irrefl (s : String) : ¬ sLT s s := by
  unfold sLT strLt
  simp [chLt_irrefl]

theorem sLT_trans {a b c : String} (h1 : sLT a b) (h2 : sLT b c) : sLT a c :=
  chLt_trans h1 h2

theorem mem_insSorted {a s : String} {l : List String} :
    a ∈ insSorted s l ↔ a = s ∨ a ∈ l := by
  induction l with
  | nil => simp [insSorted]
  | cons t rest ih =>
      by_cases h1 : s = t
      · subst h1
        simp [insSorted, List.mem_cons]
      · by_cases h2 : strLt s t
        · simp [insSorted, h1, h2, List.mem_cons]
        · simp [insSorted, h1, h2, List.mem_cons, ih]
          tauto

theorem pairwise_insSorted {s : String} {l : List String} (h : l.Pairwise sLT) :
    (insSorted s l).Pairwise sLT := by
  induction l with
  | nil => simp [insSorted]
  | cons t rest ih =>
      rcases List.pairwise_cons.mp h with ⟨ht, hrest⟩
      unfold insSorted
      by_cases h1 : s = t
      · simpa [h1] using h
      · by_cases h2 : strLt s t
        · simp only [h1, h2, if_true, if_false]
          refine List.pairwise_cons.mpr ⟨?_, h⟩
          intro x hx
          rcases List.mem_cons.mp hx with hx | hx
          · subst hx; exact h2
          · exact sLT_trans h2 (ht x hx)
        · simp only [h1, h2, if_true, if_false]
          refine List.pairwise_cons.mpr ⟨?_, ih hrest⟩
          intro x hx
          rcases mem_insSorted.mp hx with hx | hx
          · subst hx
            rcases sLT_total (fun he => h1 he) with hlt | hlt
            · exact absurd hlt h2
            · exact hlt
          · exact ht x hx

theorem mem_sortedDedup_aux {a : String} (l : List String) (acc : List String) :
    a ∈ l.foldl (fun acc s => insSorted s acc) acc ↔ a ∈ acc ∨ a ∈ l := by
  induction l generalizing acc with
  | nil => simp
  | cons s rest ih =>
      simp only [List.foldl_cons, ih, mem_insSorted, List.mem_cons]
      tauto

theorem mem_sortedDedup {a : String} {l : List String} :
    a ∈ sortedDedup l ↔ a ∈ l := by
  unfold sortedDedup
  simpa using mem_sortedDedup_aux l []

theorem pairwise_sortedDedup_aux (l : List String) (acc : List String)
    (h : acc.Pairwise sLT) :
    (l.foldl (fun acc s => insSorted s acc) acc).Pairwise sLT := by
  induction l generalizing acc with
  | nil => simpa
  | cons s rest ih => exact ih (insSorted s acc) (pairwise_insSorted h)

theorem pairwise_sortedDedup (l : List String) : (sortedDedup l).Pairwise sLT :=
  pairwise_sortedDedup_aux l [] (by simp)

theorem nodup_sortedDedup (l : List String) : (sortedDedup l).Nodup := by
  refine List.Pairwise.imp ?_ (pairwise_sortedDedup l)
  intro a b hab heq
  exact sLT_irrefl a (heq ▸ hab)

theorem tokE_ok {cols : List (List Char)} {i : Nat} (h : i < cols.length) :
    tokE cols i = Except.ok (tok cols i) := by
  cases hx : cols.get? i with
  | none => exact absurd (List.get?_eq_none.mp hx) (Nat.not_le_of_lt h)
  | some t =>
      unfold tokE tok
      rw [hx]
      rfl

theorem hcfaLineE_eq (raw : List Char) : hcfaLineE raw = Except.ok (hcfaLineF raw) := by
  unfold hcfaLineE hcfaLineF
  by_cases hl : (pysplit raw).length < 4
  · simp [hl, pure, Except.pure]
  · have h2 : 2 < (pysplit raw).length := by omega
    have h3 : 3 < (pysplit raw).length := by omega
    simp [hl, tokE_ok h2, tokE_ok h3, Bind.bind, Except.bind, pure, Except.pure]

theorem eobLineE_eq (raw : List Char) : eobLineE raw = Except.ok (eobLineF raw) := by
  unfold eobLineE eobLineF
  by_cases hl : (pysplit raw).length < 4
  · simp [hl, pure, Except.pure]
  · have h0 : 0 < (pysplit raw).length := by omega
    have h1 : 1 < (pysplit raw).length := by omega
    have h2 : 2 < (pysplit raw).length := by omega
    have h3 : 3 < (pysplit raw).length := by omega
    simp [hl, tokE_ok h0, tokE_ok h1, tokE_ok h2, tokE_ok h3, Bind.bind, Except.bind,
      pure, Except.pure]

theorem emitLoopE_eq_aux {f : List Char → Except String (Option Rec)}
    {g : List Char → Option Rec} (hfg : ∀ raw, f raw = Except.ok (g raw))
    (body : List (List Char)) (acc : List Rec) :
    body.foldlM
      (fun acc raw => do
        match ← f raw with
        | none => pure acc
        | some r => pure (acc ++ [r])) acc
      = Except.ok
          (body.foldl
            (fun acc raw =>
              match g raw with
              | none => acc
              | some r => acc ++ [r]) acc) := by
  induction body generalizing acc with
  | nil => rfl
  | cons raw rest ih =>
      rw [List.foldlM_cons, List.foldl_cons]
      cases hg : g raw with
      | none =>
          have := hfg raw
          rw [hg] at this
          simp only [this]
          simpa using ih acc
      | some r =>
          have := hfg raw
          rw [hg] at this
          simp only [this]
          simpa using ih (acc ++ [r])

theorem hcfaServiceLinesE_eq (cs : List Char) :
    hcfaServiceLinesE cs = Except.ok (hcfaServiceLines cs) := by
  unfold hcfaServiceLinesE hcfaServiceLines
  cases reSearch hcfaHeaderPat cs with
  | none => rfl
  | some m => exact emitLoopE_eq_aux hcfaLineE_eq _ []

theorem eobServiceLinesE_eq (cs : List Char) :
    eobServiceLinesE cs = Except.ok (eobServiceLines cs) := by
  unfold eobServiceLinesE eobServiceLines
  cases reSearch eobHeaderPat cs with
  | none => rfl
  | some m => exact emitLoopE_eq_aux eobLineE_eq _ []

theorem pyGetR_eobDatePart_ne {cs : List Char} {k : String} (h : ¬ ("eob_date" = k)) :
    pyGetR (eobDatePart cs) k = none := by
  unfold eobDatePart
  cases eobExtractDate cs with
  | none => rfl
  | some d =>
      by_cases hd : d = "" <;> simp [hd, pyGetR, h]

theorem pyGetR_eobClaimPart_ne {cs : List Char} {k : String} (h : ¬ ("claim_number" = k)) :
    pyGetR (eobClaimPart cs) k = none := by
  unfold eobClaimPart
  cases truthyStr (findField claimNumPat cs) with
  | none => rfl
  | some c => simp [pyGetR, h]

theorem pyGetR_hcfaDobPart_ne {cs : List Char} {k : String} (h : ¬ ("patient_dob" = k)) :
    pyGetR (hcfaDobPart cs) k = none := by
  unfold hcfaDobPart
  cases truthyStr (findField patDob cs) with
  | none => rfl
  | some v => simp [pyGetR, h]

theorem pyGetR_fieldsFilterMap {l : List (String × Pat)} {cs : List Char} {k : String}
    (h : ∀ np ∈ l, ¬ (np.1 = k)) :
    pyGetR
      (l.filterMap
        (fun np => (truthyStr (findField np.2 cs)).map (fun v => (np.1, Val.vstr v)))) k
      = none := by
  induction l with
  | nil => rfl
  | cons np rest ih =>
      rw [List.filterMap_cons]
      cases truthyStr (findField np.2 cs) with
      | none => exact ih (fun q hq => h q (List.mem_cons_of_mem np hq))
      | some v =>
          have hk : ¬ (np.1 = k) := h np (List.mem_cons_self _ _)
          simp only [Option.map_some', pyGetR, hk, if_false]
          exact ih (fun q hq => h q (List.mem_cons_of_mem np hq))

theorem pyGetR_hcfaFieldsPart_ne {cs : List Char} {k : String}
    (h : ∀ np ∈ hcfaFieldList, ¬ (np.1 = k)) :
    pyGetR (hcfaFieldsPart cs) k = none :=
  pyGetR_fieldsFilterMap h

theorem boolFalse {b : Bool} (h : ¬ (b = true)) : b = false := by
  cases b
  · rfl
  · exact absurd rfl h

/-! ## Claim theorems -/

/-- Claim C1: for every input text, classification (as surfaced by
`parse_file`, where a null classification becomes UNKNOWN) returns HCFA
exactly when some pattern of the HCFA list matches anywhere in the text,
returns EOB exactly when no HCFA pattern matches but some EOB pattern does,
and returns UNKNOWN exactly when no pattern of either list matches. -/
theorem classification_priority_c1 (cs : List Char) :
    (docType cs = "HCFA" ↔ ∃ p ∈ HCFA_PATTERNS, reMatches p cs = true)
  ∧ (docType cs = "EOB" ↔
      ((∀ p ∈ HCFA_PATTERNS, reMatches p cs = false) ∧
        ∃ p ∈ EOB_PATTERNS, reMatches p cs = true))
  ∧ (docType cs = "UNKNOWN" ↔
      ((∀ p ∈ HCFA_PATTERNS, reMatches p cs = false) ∧
        ∀ p ∈ EOB_PATTERNS, reMatches p cs = false)) := by
  unfold docType classify_text
  by_cases h1 : HCFA_PATTERNS.any (fun p => reMatches p cs) = true
  · have hex : ∃ p ∈ HCFA_PATTERNS, reMatches p cs = true := List.any_eq_true.mp h1
    rcases hex with ⟨p0, hp0, hm0⟩
    have hnall : ¬ (∀ p ∈ HCFA_PATTERNS, reMatches p cs = false) := by
      intro hall
      rw [hall p0 hp0] at hm0
      exact Bool.false_ne_true hm0
    rw [if_pos h1]
    refine ⟨?_, ?_, ?_⟩
    · exact ⟨fun _ => ⟨p0, hp0, hm0⟩, fun _ => rfl⟩
    · constructor
      · intro hs; exact absurd hs (by decide)
      · intro ⟨hall, _⟩; exact absurd hall hnall
    · constructor
      · intro hs; exact absurd hs (by decide)
      · intro ⟨hall, _⟩; exact absurd hall hnall
  · have h1f := boolFalse h1
    have hallH : ∀ p ∈ HCFA_PATTERNS, reMatches p cs = false :=
      fun p hp => boolFalse (List.any_eq_false.mp h1f p hp)
    by_cases h2 : EOB_PATTERNS.any (fun p => reMatches p cs) = true
    · have hex : ∃ p ∈ EOB_PATTERNS, reMatches p cs = true := List.any_eq_true.mp h2
      rcases hex with ⟨q0, hq0, hm0⟩
      rw [if_neg h1, if_pos h2]
      refine ⟨?_, ?_, ?_⟩
      · constructor
        · intro hs; exact absurd hs (by decide)
        · intro ⟨q1, hq1, hm1⟩
          rw [hallH q1 hq1] at hm1
          exact absurd hm1 Bool.false_ne_true
      · exact ⟨fun _ => ⟨hallH, q0, hq0, hm0⟩, fun _ => rfl⟩
      · constructor
        · intro hs; exact absurd hs (by decide)
        · intro ⟨_, hallE⟩
          rw [hallE q0 hq0] at hm0
          exact absurd hm0 Bool.false_ne_true
    · have h2f := boolFalse h2
      have hallE : ∀ p ∈ EOB_PATTERNS, reMatches p cs = false :=
        fun p hp => boolFalse (List.any_eq_false.mp h2f p hp)
      rw [if_neg h1, if_neg h2]
      refine ⟨?_, ?_, ?_⟩
      · constructor
        · intro hs; exact absurd hs (by decide)
        · intro ⟨p1, hp1, hm1⟩
          rw [hallH p1 hp1] at hm1
          exact absurd hm1 Bool.false_ne_true
      · constructor
        · intro hs; exact absurd hs (by decide)
        · intro ⟨_, q1, hq1, hm1⟩
          rw [hallE q1 hq1] at hm1
          exact absurd hm1 Bool.false_ne_true
      · exact ⟨fun _ => ⟨hallH, hallE⟩, fun _ => rfl⟩

/-- Claim C5: classification plus each extractor (composed in the
orchestrator), money normalization, and date normalization return a result
for every input without an exception escaping: the exception-explicit
variants are always `ok`. -/
theorem no_exception_c5 (cs ms ds : List Char) :
    excOk (parse_textE cs) = true
  ∧ (∃ r, hcfaParseE cs = Except.ok r)
  ∧ (∃ r, eobParseE cs = Except.ok r)
  ∧ (∃ r, parse_moneyE ms = Except.ok r)
  ∧ (∃ r, parse_dateE ds = Except.ok r) := by
  have hh : hcfaParseE cs = Except.ok (hcfaResultWith cs (hcfaServiceLines cs)) := by
    unfold hcfaParseE
    rw [hcfaServiceLinesE_eq]
    rfl
  have he : eobParseE cs = Except.ok (eobResultWith cs (eobServiceLines cs)) := by
    unfold eobParseE
    rw [eobServiceLinesE_eq]
    rfl
  refine ⟨?_, ⟨_, hh⟩, ⟨_, he⟩, ?_, ⟨_, rfl⟩⟩
  · unfold parse_textE
    by_cases hd1 : docType cs = "HCFA"
    · simp [hd1, hh, excOk]
    · by_cases hd2 : docType cs = "EOB"
      · simp [hd1, hd2, he, excOk]
      · simp [hd1, hd2, excOk]
  · unfold parse_moneyE
    by_cases hm : ms.isEmpty
    · exact ⟨none, by simp [hm]⟩
    · cases hdec : decimalE (moneyCleaned ms).2 with
      | ok a =>
          exact ⟨some (if (moneyCleaned ms).1 then -a else a), by simp [hm, hdec]⟩
      | error e => exact ⟨none, by simp [hm, hdec]⟩

/-- Claim C7: MoneyNormalizer yields the same exact decimal for
"1234.56", "$1,234.56" and "1,234.56"; yields -20.00 for "(20.00)";
yields the null result for "abc"; and yields the null result for every
input whose remainder after the strip phase fails exact decimal
construction (in particular when it is empty). -/
theorem money_normalizer_c7 :
    (parse_money "1234.56" = some (mkRat 123456 100)
      ∧ parse_money "$1,234.56" = parse_money "1234.56"
      ∧ parse_money "1,234.56" = parse_money "1234.56")
  ∧ parse_money "(20.00)" = some (-20)
  ∧ parse_money "abc" = none
  ∧ ∀ cs : List Char, decimalOfChars (moneyRemainder cs) = none → parse_moneyC cs = none := by
  refine ⟨⟨by decide, by decide, by decide⟩, by decide, by decide, ?_⟩
  intro cs h
  unfold parse_moneyC
  by_cases he : cs.isEmpty
  · simp [he]
  · rw [moneyRemainder] at h
    simp [he, h]

/-- Claim C7 witness: applying the universally quantified part at the
concrete input "xyz", whose stripped remainder is empty. -/
theorem money_normalizer_c7_witness : parse_moneyC ("xyz".data) = none :=
  money_normalizer_c7.2.2.2 ("xyz".data) (by decide)

/-- Claim C2 counterexample: after the HCFA service-line header anchor, a
row of exactly four whitespace tokens is emitted as a ServiceLine (the claim
requires at least five), and the emitted record carries only the cpt_code
and charge fields (third and fourth token), not the five-field layout the
claim states. -/
theorem hcfa_lines_c2_counterexample :
    (pysplit ("X Y 99213 150.00".data)).length = 4
  ∧ hcfaServiceLines c2txt
      = [[("cpt_code", some (RVal.rstr "99213")), ("charge", some (RVal.rdec 150))]] :=
  ⟨by decide, by decide⟩

/-- Claim C2 (amended): for every line of text following the HCFA
service-line header anchor, a ServiceLine is emitted if and only if the line
splits into at least 4 whitespace-delimited tokens; each emitted line maps
the third token to the CPT code and the fourth to the charge (via
MoneyNormalizer); shorter lines are silently dropped without affecting
extraction of subsequent valid lines. -/
theorem hcfa_lines_c2_amended (cs : List Char) (m : MRes)
    (h : reSearch hcfaHeaderPat cs = some m) :
    hcfaServiceLines cs = (pysplitlines (cs.drop m.stop)).filterMap hcfaLineF
  ∧ ∀ raw : List Char, ¬ (pysplit raw).length < 4 →
      hcfaLineF raw = some (dictOf
        { cpt_code := some (String.mk (tok (pysplit raw) 2)),
          charge := parse_moneyC (tok (pysplit raw) 3),
          patient_responsibility := none, insurance_paid := none }) := by
  constructor
  · unfold hcfaServiceLines
    rw [h]
    exact emitLoop_eq_filterMap hcfaLineF _
  · intro raw hr
    unfold hcfaLineF
    rw [if_neg hr]

/-- Claim C2 witness: the amended theorem applied to the concrete sample
text, whose header match ends at position 19. -/
theorem hcfa_lines_c2_witness :
    hcfaServiceLines c2txt = (pysplitlines (c2txt.drop 19)).filterMap hcfaLineF :=
  (hcfa_lines_c2_amended c2txt ⟨0, 19, none⟩ (by decide)).1

/-- Claim C3 counterexample: on a text that classifies as EOB but has no
line containing "insurance", the output maps the key insurance_name to the
null value instead of omitting it. -/
theorem null_value_c3_counterexample :
    pyGetR (parse_text c3txt) "insurance_name" = some Val.vnull := by decide

/-- Claim C3 (amended): no key of the output mapping maps to a null value,
except that the EOB insurer-name key is always present (null when no line
contains "insurance"), and the HCFA date-of-birth key and the EOB date key
are present with a null value when their anchor matched but date
normalization failed. -/
theorem null_fields_c3_amended (cs : List Char) (k : String) :
    ((k, Val.vnull) ∈ hcfaParse cs → k = "patient_dob")
  ∧ ((k, Val.vnull) ∈ eobParse cs → (k = "insurance_name" ∨ k = "eob_date")) := by
  constructor
  · intro hmem
    unfold hcfaParse hcfaResultWith at hmem
    simp only [List.mem_append, List.mem_singleton] at hmem
    rcases hmem with ((h | h) | h) | h
    · simp at h
    · unfold hcfaFieldsPart at h
      rcases List.mem_filterMap.mp h with ⟨np, _, heq⟩
      cases htv : truthyStr (findField np.2 cs) <;> rw [htv] at heq <;> simp at heq
    · unfold hcfaDobPart at h
      cases htv : truthyStr (findField patDob cs) <;> rw [htv] at h
      · simp at h
      · simp at h
        exact h.1
    · simp at h
  · intro hmem
    unfold eobParse eobResultWith at hmem
    simp only [List.mem_append, List.mem_singleton] at hmem
    rcases hmem with ((((h | h) | h) | h) | h) | h
    · simp at h
    · unfold eobDatePart at h
      cases htv : eobExtractDate cs <;> rw [htv] at h
      · simp at h
      · rename_i d
        by_cases hd : d = ""
        · simp [hd] at h
        · simp [hd] at h
          exact Or.inr h.1
    · unfold eobClaimPart at h
      cases htv : truthyStr (findField claimNumPat cs) <;> rw [htv] at h <;> simp at h
    · simp at h
      exact Or.inl h.1
    · simp at h
    · unfold eobAggPart at h
      by_cases hL : (eobServiceLines cs).isEmpty
      · rw [if_pos hL] at h
        simp at h
      · rw [if_neg hL] at h
        simp at h

/-- Claim C3 witness: the amended theorem applied at the concrete EOB text
with no insurance line, where the null-valued key is insurance_name. -/
theorem null_fields_c3_witness :
    "insurance_name" = "insurance_name" ∨ "insurance_name" = "eob_date" :=
  (null_fields_c3_amended c3txt "insurance_name").2 (by decide)

/-- Claim C6 counterexample: in a text whose check-date label precedes its
payment-date label, the eob_date value comes from the check-date line
(leftmost match of the single alternation pattern), not from the
payment-date line as the claimed label priority requires. -/
theorem eob_date_c6_counterexample :
    eobExtractDate c6txt = some "03/04/2022"
  ∧ pyGetR (eobParse c6txt) "eob_date" = some (Val.vstr "2022-03-04") :=
  ⟨by decide, by decide⟩

/-- Claim C6 (amended): the eob_date field is taken from the leftmost
occurrence of any one family-date label (statement, payment, check, printed
or processing date) -- the first DATE_PATTERNS regex; a generic date label
is used only when that pattern yields nothing truthy -- and the chosen raw
value is passed through DateNormalizer. -/
theorem eob_date_c6_amended (cs : List Char) (v : String)
    (h : findField eobDatePat1 cs = some v) (hv : ¬ (v = "")) :
    pyGetR (eobParse cs) "eob_date" = some (optStrVal (parse_date v)) := by
  have hex : eobExtractDate cs = some v := by
    unfold eobExtractDate
    rw [h]
    simp [truthyStr, hv]
  have hdp : eobDatePart cs = [("eob_date", optStrVal (parse_date v))] := by
    unfold eobDatePart
    rw [hex]
    simp [hv]
  unfold eobParse eobResultWith
  rw [hdp]
  simp only [List.append_assoc]
  have hA : pyGetR [("doc_type", Val.vstr "EOB")] "eob_date" = none := by decide
  rw [pyGetR_append_none hA]
  exact pyGetR_append_some (by simp [pyGetR])

/-- Claim C6 witness: the amended theorem applied at the concrete text; the
first date pattern captures the check-date value. -/
theorem eob_date_c6_witness :
    pyGetR (eobParse c6txt) "eob_date" = some (optStrVal (parse_date "03/04/2022")) :=
  eob_date_c6_amended c6txt "03/04/2022" (by decide) (by decide)

theorem pyGetR_eobParse_to_agg {cs : List Char} {key : String}
    (h1 : ¬ ("doc_type" = key)) (h2 : ¬ ("eob_date" = key))
    (h3 : ¬ ("claim_number" = key)) (h4 : ¬ ("insurance_name" = key))
    (h5 : ¬ ("service_lines" = key)) :
    pyGetR (eobParse cs) key = pyGetR (eobAggPart (eobServiceLines cs)) key := by
  unfold eobParse eobResultWith
  simp only [List.append_assoc]
  have e1 : pyGetR [("doc_type", Val.vstr "EOB")] key = none := by simp [pyGetR, h1]
  have e4 : pyGetR [("insurance_name", optStrVal (eobInsName cs))] key = none := by
    simp [pyGetR, h4]
  have e5 : pyGetR [("service_lines", Val.vrecs (eobServiceLines cs))] key = none := by
    simp [pyGetR, h5]
  rw [pyGetR_append_none e1, pyGetR_append_none (pyGetR_eobDatePart_ne h2),
    pyGetR_append_none (pyGetR_eobClaimPart_ne h3), pyGetR_append_none e4,
    pyGetR_append_none e5]

theorem dictOf_vals_isSome {sl : ServiceLine} {kv : String × Option RVal}
    (hkv : kv ∈ dictOf sl) : kv.2.isSome = true :=
  (List.mem_filter.mp hkv).2

theorem dictOf_cpt_mem {sl : ServiceLine} {s : String} (hc : sl.cpt_code = some s) :
    ("cpt_code", some (RVal.rstr s)) ∈ dictOf sl := by
  unfold dictOf asdictPairs
  rw [hc, Option.map_some', List.filter_cons_of_pos (by rfl)]
  exact List.mem_cons_self _ _

theorem tok_mem {cols : List (List Char)} {i : Nat} (h : i < cols.length) :
    tok cols i ∈ cols := by
  cases hx : cols.get? i with
  | none => exact absurd (List.get?_eq_none.mp hx) (Nat.not_le_of_lt h)
  | some t =>
      unfold tok
      rw [hx]
      exact List.get?_mem hx

/-- Claim C4: for every EOB parse with at least one service line, the
patient_responsibility and insurance_paid aggregates equal the exact
decimal sums of the corresponding field over all extracted service lines
(absent contributing zero), and cpt_codes is a sorted, duplicate-free list
holding exactly the truthy CPT codes of those lines. -/
theorem eob_aggregates_c4 (cs : List Char) (h : eobServiceLines cs ≠ []) :
    pyGetR (eobParse cs) "patient_responsibility"
      = some (Val.vdec (((eobServiceLines cs).map
          (fun r => recGetDec r "patient_responsibility")).sum))
  ∧ pyGetR (eobParse cs) "insurance_paid"
      = some (Val.vdec (((eobServiceLines cs).map
          (fun r => recGetDec r "insurance_paid")).sum))
  ∧ ∃ codes, pyGetR (eobParse cs) "cpt_codes" = some (Val.vstrList codes)
      ∧ (∀ s, s ∈ codes ↔ s ∈ (eobServiceLines cs).filterMap cptTruthy)
      ∧ List.Pairwise sLT codes
      ∧ codes.Nodup := by
  have hne : ¬ ((eobServiceLines cs).isEmpty = true) := by
    rw [List.isEmpty_iff]
    exact h
  have hsum1 : (eobServiceLines cs).foldl
        (fun a r => a + recGetDec r "patient_responsibility") 0
      = ((eobServiceLines cs).map (fun r => recGetDec r "patient_responsibility")).sum := by
    simpa using foldl_add_eq_sum (fun r => recGetDec r "patient_responsibility")
      (eobServiceLines cs) 0
  have hsum2 : (eobServiceLines cs).foldl
        (fun a r => a + recGetDec r "insurance_paid") 0
      = ((eobServiceLines cs).map (fun r => recGetDec r "insurance_paid")).sum := by
    simpa using foldl_add_eq_sum (fun r => recGetDec r "insurance_paid")
      (eobServiceLines cs) 0
  refine ⟨?_, ?_, ?_⟩
  · rw [pyGetR_eobParse_to_agg (by decide) (by decide) (by decide) (by decide) (by decide)]
    unfold eobAggPart
    rw [if_neg hne, hsum1]
    simp [pyGetR]
  · rw [pyGetR_eobParse_to_agg (by decide) (by decide) (by decide) (by decide) (by decide)]
    unfold eobAggPart
    rw [if_neg hne, hsum2]
    simp [pyGetR]
  · refine ⟨sortedDedup ((eobServiceLines cs).filterMap cptTruthy), ?_, ?_, ?_, ?_⟩
    · rw [pyGetR_eobParse_to_agg (by decide) (by decide) (by decide) (by decide) (by decide)]
      unfold eobAggPart
      rw [if_neg hne]
      simp [pyGetR]
    · intro s
      exact mem_sortedDedup
    · exact pairwise_sortedDedup _
    · exact nodup_sortedDedup _

/-- Claim C4 witness: the theorem applied at a concrete two-line EOB text. -/
theorem eob_aggregates_c4_witness :
    pyGetR (eobParse c4txt) "patient_responsibility"
      = some (Val.vdec (((eobServiceLines c4txt).map
          (fun r => recGetDec r "patient_responsibility")).sum)) :=
  (eob_aggregates_c4 c4txt (by decide)).1

/-- Claim C8: for every HCFA text with at least one diagnosis-code anchor
match, the extractor output holds the diagnosis_codes entry with every match
as an ordered sequence (the find-all result).  The diagnosis-code anchor is
modelled from the spec, the carrying extractor evolution being absent from
`src/`. -/
theorem diagnosis_codes_c8 (cs : List Char) (h : hcfaDiagnosisCodes cs ≠ []) :
    pyGetR (hcfaResultWithDiag cs) "diagnosis_codes"
      = some (Val.vstrList (hcfaDiagnosisCodes cs)) := by
  unfold hcfaResultWithDiag
  simp only [List.append_assoc]
  have e1 : pyGetR [("doc_type", Val.vstr "HCFA")] "diagnosis_codes" = none := by decide
  have e2 : pyGetR (hcfaFieldsPart cs) "diagnosis_codes" = none := by
    apply pyGetR_hcfaFieldsPart_ne
    intro np hnp
    simp [hcfaFieldList] at hnp
    rcases hnp with h1 | h1 | h1 | h1 | h1 <;> rw [h1] <;> decide
  rw [pyGetR_append_none e1, pyGetR_append_none e2]
  cases hc : hcfaDiagnosisCodes cs with
  | nil => exact absurd hc h
  | cons a t => exact pyGetR_append_some (by simp [pyGetR])

/-- Claim C8 witness: a text with two diagnosis anchors yields both captures
in order. -/
theorem diagnosis_codes_c8_witness :
    pyGetR (hcfaResultWithDiag c8txt) "diagnosis_codes"
      = some (Val.vstrList (hcfaDiagnosisCodes c8txt)) :=
  diagnosis_codes_c8 c8txt (by decide)

/-- Claim C9: every service-line record emitted by either extractor has
only non-null values (null-valued keys are filtered out before the record
is appended) and always carries a cpt_code key with a non-empty string. -/
theorem service_records_c9 (cs : List Char) (r : Rec)
    (h : r ∈ hcfaServiceLines cs ∨ r ∈ eobServiceLines cs) :
    (∀ kv ∈ r, kv.2.isSome = true)
  ∧ ∃ s, ("cpt_code", some (RVal.rstr s)) ∈ r ∧ ¬ (s = "") := by
  rcases h with h | h
  · unfold hcfaServiceLines at h
    cases hm : reSearch hcfaHeaderPat cs with
    | none =>
        rw [hm] at h
        simp at h
    | some m =>
      rw [hm] at h
      have h2 : r ∈ emitLoop hcfaLineF (pysplitlines (cs.drop m.stop)) := h
      rw [emitLoop_eq_filterMap] at h2
      rcases List.mem_filterMap.mp h2 with ⟨raw, _, hf⟩
      unfold hcfaLineF at hf
      by_cases hl : (pysplit raw).length < 4
      · rw [if_pos hl] at hf
        exact absurd hf (by simp)
      · rw [if_neg hl] at hf
        have hr := Option.some.inj hf
        subst hr
        refine ⟨fun kv hkv => dictOf_vals_isSome hkv,
          String.mk (tok (pysplit raw) 2), dictOf_cpt_mem rfl, ?_⟩
        exact stringMk_ne_empty (pysplit_ne_nil (tok_mem (by omega)))
  · unfold eobServiceLines at h
    cases hm : reSearch eobHeaderPat cs with
    | none =>
        rw [hm] at h
        simp at h
    | some m =>
      rw [hm] at h
      have h2 : r ∈ emitLoop eobLineF (pysplitlines (cs.drop m.stop)) := h
      rw [emitLoop_eq_filterMap] at h2
      rcases List.mem_filterMap.mp h2 with ⟨raw, _, hf⟩
      unfold eobLineF at hf
      by_cases hl : (pysplit raw).length < 4
      · rw [if_pos hl] at hf
        exact absurd hf (by simp)
      · rw [if_neg hl] at hf
        have hr := Option.some.inj hf
        subst hr
        refine ⟨fun kv hkv => dictOf_vals_isSome hkv,
          String.mk (tok (pysplit raw) 0), dictOf_cpt_mem rfl, ?_⟩
        exact stringMk_ne_empty (pysplit_ne_nil (tok_mem (by omega)))

/-- Claim C9 witness: the theorem applied at a concrete EOB text and its
emitted record. -/
theorem service_records_c9_witness :
    (∀ kv ∈ c9rec, kv.2.isSome = true)
  ∧ ∃ s, ("cpt_code", some (RVal.rstr s)) ∈ c9rec ∧ ¬ (s = "") :=
  service_records_c9 c9txt c9rec (Or.inr (by decide))

/-- Claim C10: the EOB output carries the three aggregate keys exactly when
at least one service line was extracted; with no service lines all three
are absent. -/
theorem aggregate_presence_c10 (cs : List Char) :
    ((pyGetR (eobParse cs) "cpt_codes").isSome = true ↔ eobServiceLines cs ≠ [])
  ∧ ((pyGetR (eobParse cs) "patient_responsibility").isSome = true
      ↔ eobServiceLines cs ≠ [])
  ∧ ((pyGetR (eobParse cs) "insurance_paid").isSome = true
      ↔ eobServiceLines cs ≠ []) := by
  refine ⟨?_, ?_, ?_⟩ <;>
    rw [pyGetR_eobParse_to_agg (by decide) (by decide) (by decide) (by decide) (by decide)] <;>
      unfold eobAggPart <;>
        by_cases hL : (eobServiceLines cs).isEmpty = true
  · rw [if_pos hL]
    simp [pyGetR, List.isEmpty_iff.mp hL]
  · rw [if_neg hL]
    rw [List.isEmpty_iff] at hL
    simp [pyGetR, hL]
  · rw [if_pos hL]
    simp [pyGetR, List.isEmpty_iff.mp hL]
  · rw [if_neg hL]
    rw [List.isEmpty_iff] at hL
    simp [pyGetR, hL]
  · rw [if_pos hL]
    simp [pyGetR, List.isEmpty_iff.mp hL]
  · rw [if_neg hL]
    rw [List.isEmpty_iff] at hL
    simp [pyGetR, hL]

end PdfClaim
